import Mathlib

/-!
Verification of the certificate mail-merge tool (`src/src/App.tsx` and the two
companion revisions under `src/unnamed/`).

The embedding models spreadsheet records as association lists from column
names to cell values.  A JavaScript cell value of the app's `CertificateData`
type is a string or a number; the code additionally guards against `null` /
`undefined` with `?.toString() || ''`, so the value type has a null
constructor as well.  Numbers are modelled as integers: every comparison and
conversion the app performs on cell numbers is exact integer arithmetic there.
-/

/-- Cell values of a spreadsheet record (`CertificateData` values in App.tsx):
a string, a number, or a null/undefined slot. -/
inductive JValue where
  | str : String → JValue
  | num : Int → JValue
  | null : JValue
deriving DecidableEq, Repr

/-- A spreadsheet record: an association list of column name to cell value,
in `Object.keys` (insertion) order. -/
abbrev CertRecord := List (String × JValue)

/-- Models the JavaScript idiom `v?.toString() || ''` used by
`mergeCertificate` and `generateDocx`: null/undefined becomes the empty
string, a string stays itself, a number prints in decimal. -/
def jvalToStr : JValue → String
  | JValue.str s => s
  | JValue.num n => toString n
  | JValue.null => ""

/-- Models plain `.toString()` on a value already known to be truthy
(used for the download filename `name.toString()`). -/
def jsToString : JValue → String
  | JValue.str s => s
  | JValue.num n => toString n
  | JValue.null => "null"

/-- JavaScript truthiness of an optional cell value: `undefined`, `null`,
the empty string and the number 0 are falsy. -/
def jTruthy : Option JValue → Bool
  | none => false
  | some JValue.null => false
  | some (JValue.str s) => decide (s ≠ "")
  | some (JValue.num n) => decide (n ≠ 0)

/-- Property lookup `record[key]` on an association-list record. -/
def jlookup (record : CertRecord) (key : String) : Option JValue :=
  (record.find? (fun kv => kv.1 = key)).map Prod.snd

/-- English month names used by `toLocaleDateString('en-US', { month: 'long' })`. -/
def monthName : Nat → String
  | 1 => "January"
  | 2 => "February"
  | 3 => "March"
  | 4 => "April"
  | 5 => "May"
  | 6 => "June"
  | 7 => "July"
  | 8 => "August"
  | 9 => "September"
  | 10 => "October"
  | 11 => "November"
  | 12 => "December"
  | _ => ""

/-- Civil date (year, month, day) of a day count relative to 1970-01-01,
the proleptic-Gregorian day computation performed by the JavaScript `Date`
object (modelled at UTC offset zero). -/
def civilFromDays (z0 : Int) : Int × Nat × Nat :=
  let z : Int := z0 + 719468
  let era : Int := (if 0 ≤ z then z else z - 146096) / 146097
  let doe : Nat := (z - era * 146097).toNat
  let yoe : Nat := (doe - doe / 1460 + doe / 36524 - doe / 146096) / 365
  let y : Int := (yoe : Int) + era * 400
  let doy : Nat := doe - (365 * yoe + yoe / 4 - yoe / 100)
  let mp : Nat := (5 * doy + 2) / 153
  let d : Nat := doy - (153 * mp + 2) / 5 + 1
  let m : Nat := if mp < 10 then mp + 3 else mp - 9
  (if m ≤ 2 then y + 1 else y, m, d)

/-- Models `excelDateToJSDate` of App.tsx for an integer Excel serial:
`utc_days = Math.floor(serial - 25569)`, the `Date` built from it, and
`toLocaleDateString('en-US', { year: 'numeric', month: 'long', day:
'numeric' })`.  For an integer serial the fractional-day arithmetic of the
source yields hours = minutes = seconds = 0, and only the civil date is
formatted. -/
def excelDateToJSDate (serial : Int) : String :=
  let utcDays : Int := serial - 25569
  let ymd := civilFromDays utcDays
  monthName ymd.2.1 ++ " " ++ toString ymd.2.2 ++ ", " ++ toString ymd.1

/-- The per-cell step of `processExcelData`: a number strictly between 1 and
73050 is treated as an Excel date serial and converted; everything else is
kept. -/
def processCell (v : JValue) : JValue :=
  match v with
  | JValue.num n => if 1 < n ∧ n < 73050 then JValue.str (excelDateToJSDate n) else JValue.num n
  | v => v

/-- The per-row step of `processExcelData`: a fresh record with the same keys
in the same order and each value passed through `processCell`. -/
def processRow (row : CertRecord) : CertRecord :=
  row.map (fun kv => (kv.1, processCell kv.2))

/-- Models `processExcelData` of App.tsx (also present in
`src/unnamed/part_001`). -/
def processExcelData (rows : List CertRecord) : List CertRecord :=
  rows.map processRow

/-- Models JavaScript `toLowerCase()` character by character (ASCII case
folding, applied structurally over the character list). -/
def toLowerStr (s : String) : String := String.mk (s.data.map Char.toLower)

/-- The case-insensitive value that `generateDocx` places in `templateData`
for one placeholder: the first record key equal to the placeholder up to
letter case supplies its value via `?.toString() || ''`; with no such key the
empty string is used. -/
def caseInsensitiveValue (record : CertRecord) (ph : String) : String :=
  match record.find? (fun kv => toLowerStr kv.1 = toLowerStr ph) with
  | some kv => jvalToStr kv.2
  | none => ""

/-- Models the `templateData` construction of `generateDocx` in App.tsx:
one entry per extracted placeholder, filled case-insensitively from the
record. -/
def buildTemplateData (phs : List String) (record : CertRecord) : List (String × String) :=
  phs.map (fun ph => (ph, caseInsensitiveValue record ph))

/-- Models the `nullGetter` option `generateDocx` passes to Docxtemplater:
any tag the render data does not cover renders as the empty string. -/
def nullGetterValue : String := ""

/-- C3: `processExcelData` returns a list of the same length in which, in
every row, each cell whose value is a number strictly between 1 and 73050 is
replaced by the date string of `excelDateToJSDate` for that serial, every
other cell value is left unchanged, and the keys of each row (and their
order) are unchanged. -/
theorem processExcelData_date_coercion (rows : List CertRecord) :
    (processExcelData rows).length = rows.length ∧
    ∀ (i : Nat) (hi : i < rows.length) (hi2 : i < (processExcelData rows).length),
      ((processExcelData rows).get ⟨i, hi2⟩).map Prod.fst = (rows.get ⟨i, hi⟩).map Prod.fst ∧
      ((processExcelData rows).get ⟨i, hi2⟩).length = (rows.get ⟨i, hi⟩).length ∧
      ∀ (j : Nat) (hj : j < (rows.get ⟨i, hi⟩).length)
        (hj2 : j < ((processExcelData rows).get ⟨i, hi2⟩).length),
        (((processExcelData rows).get ⟨i, hi2⟩).get ⟨j, hj2⟩).1
            = ((rows.get ⟨i, hi⟩).get ⟨j, hj⟩).1 ∧
        (∀ n : Int, ((rows.get ⟨i, hi⟩).get ⟨j, hj⟩).2 = JValue.num n → 1 < n → n < 73050 →
          (((processExcelData rows).get ⟨i, hi2⟩).get ⟨j, hj2⟩).2
              = JValue.str (excelDateToJSDate n)) ∧
        (∀ n : Int, ((rows.get ⟨i, hi⟩).get ⟨j, hj⟩).2 = JValue.num n → (n ≤ 1 ∨ 73050 ≤ n) →
          (((processExcelData rows).get ⟨i, hi2⟩).get ⟨j, hj2⟩).2 = JValue.num n) ∧
        (∀ s : String, ((rows.get ⟨i, hi⟩).get ⟨j, hj⟩).2 = JValue.str s →
          (((processExcelData rows).get ⟨i, hi2⟩).get ⟨j, hj2⟩).2 = JValue.str s) ∧
        (((rows.get ⟨i, hi⟩).get ⟨j, hj⟩).2 = JValue.null →
          (((processExcelData rows).get ⟨i, hi2⟩).get ⟨j, hj2⟩).2 = JValue.null) := by
  refine ⟨by simp [processExcelData], ?_⟩
  intro i hi hi2
  have hrow : (processExcelData rows).get ⟨i, hi2⟩ = processRow (rows.get ⟨i, hi⟩) := by
    simp [processExcelData, List.get_eq_getElem, List.getElem_map]
  constructor
  · rw [hrow]; simp [processRow]
  constructor
  · rw [hrow]; simp [processRow]
  intro j hj hj2
  have hcell : ((processExcelData rows).get ⟨i, hi2⟩).get ⟨j, hj2⟩
      = (((rows.get ⟨i, hi⟩).get ⟨j, hj⟩).1,
         processCell (((rows.get ⟨i, hi⟩).get ⟨j, hj⟩).2)) := by
    simp [processExcelData, processRow, List.get_eq_getElem, List.getElem_map]
  rw [hcell]
  refine ⟨rfl, ?_, ?_, ?_, ?_⟩
  · intro n hn h1 h2
    rw [hn]
    show processCell (JValue.num n) = _
    rw [processCell, if_pos ⟨h1, h2⟩]
  · intro n hn hrange
    rw [hn]
    show processCell (JValue.num n) = _
    rw [processCell, if_neg (by omega)]
  · intro s hs
    rw [hs]
    rfl
  · intro hnull
    rw [hnull]
    rfl

/-- Witness for C3 on a concrete one-row sheet: the serial 2 is coerced to
its date string. -/
theorem processExcelData_date_coercion_w :
    (((processExcelData [[("d", JValue.num 2)]]).get ⟨0, by decide⟩).get ⟨0, by decide⟩).2
        = JValue.str (excelDateToJSDate 2) ∧
    excelDateToJSDate 2 = "January 1, 1900" := by
  refine ⟨?_, by decide⟩
  exact (((processExcelData_date_coercion [[("d", JValue.num 2)]]).2 0 (by decide)
    (by decide)).2.2 0 (by decide) (by decide)).2.1 2 rfl (by decide) (by decide)

/-- C4: the render data of `generateDocx` maps every extracted placeholder to
the value of a record key equal to it up to letter case (stringified, empty
for null), and to the empty string when no record key matches. -/
theorem generateDocx_case_insensitive (phs : List String) (record : CertRecord)
    (ph : String) (hph : ph ∈ phs) :
    (ph, caseInsensitiveValue record ph) ∈ buildTemplateData phs record ∧
    ((∃ kv ∈ record, toLowerStr kv.1 = toLowerStr ph) →
      ∃ kv ∈ record, toLowerStr kv.1 = toLowerStr ph ∧
        caseInsensitiveValue record ph = jvalToStr kv.2) ∧
    ((∀ kv ∈ record, toLowerStr kv.1 ≠ toLowerStr ph) →
      caseInsensitiveValue record ph = "") := by
  refine ⟨?_, ?_, ?_⟩
  · exact List.mem_map.mpr ⟨ph, hph, rfl⟩
  · intro hex
    have hsome : (record.find? (fun kv => toLowerStr kv.1 = toLowerStr ph)).isSome := by
      rw [List.find?_isSome]
      obtain ⟨kv, hkv, he⟩ := hex
      exact ⟨kv, hkv, by simp [he]⟩
    obtain ⟨kv, hfind⟩ := Option.isSome_iff_exists.mp hsome
    refine ⟨kv, List.mem_of_find?_eq_some hfind, ?_, ?_⟩
    · have := List.find?_some hfind
      simpa using this
    · rw [caseInsensitiveValue, hfind]
  · intro hall
    have hnone : record.find? (fun kv => toLowerStr kv.1 = toLowerStr ph) = none := by
      rw [List.find?_eq_none]
      intro kv hkv
      simp [hall kv hkv]
    rw [caseInsensitiveValue, hnone]

/-- Witness for C4: on a concrete record the placeholder `Name` is filled
from the `name` column and the unmatched placeholder `Degree` becomes
empty. -/
theorem generateDocx_case_insensitive_w :
    ("Name", caseInsensitiveValue [("name", JValue.str "Ada")] "Name")
        ∈ buildTemplateData ["Name", "Degree"] [("name", JValue.str "Ada")] ∧
    caseInsensitiveValue [("name", JValue.str "Ada")] "Name" = "Ada" ∧
    caseInsensitiveValue [("name", JValue.str "Ada")] "Degree" = "" := by
  have h1 := generateDocx_case_insensitive ["Name", "Degree"] [("name", JValue.str "Ada")]
    "Name" (by decide)
  have h2 := generateDocx_case_insensitive ["Name", "Degree"] [("name", JValue.str "Ada")]
    "Degree" (by decide)
  refine ⟨h1.1, by decide, h2.2.2 (by decide)⟩

/-- Outcome of `handleDownloadRange`: whether the invalid-range alert fired,
the 0-based indices of the records whose generation-and-download was
scheduled (in scheduling order), and the final state of the range dialog
(`true` = still open). -/
structure RangeOutcome where
  alerted : Bool
  scheduled : List Nat
  showRangeDialog : Bool
deriving DecidableEq, Repr

/-- Models `handleDownloadRange` of App.tsx: an invalid range (start < 1,
end beyond the data, or start past end) alerts and returns early; otherwise
the loop schedules one generation per index from `rangeStart - 1` up to
`rangeEnd - 1` and the dialog is closed. -/
def handleDownloadRange (rangeStart rangeEnd : Int) (dataLen : Nat) : RangeOutcome :=
  if rangeStart < 1 ∨ rangeEnd > (dataLen : Int) ∨ rangeStart > rangeEnd then
    { alerted := true, scheduled := [], showRangeDialog := true }
  else
    { alerted := false
      scheduled := List.range' (rangeStart - 1).toNat (rangeEnd - rangeStart + 1).toNat
      showRangeDialog := false }

/-- C5: `handleDownloadRange` downloads nothing and reports an invalid range
exactly when rangeStart < 1, rangeEnd > data.length or rangeStart > rangeEnd;
otherwise it schedules one generation per record whose 1-based index lies in
the inclusive range, rangeEnd - rangeStart + 1 in total, and closes the
dialog. -/
theorem handleDownloadRange_spec (rangeStart rangeEnd : Int) (dataLen : Nat) :
    ((handleDownloadRange rangeStart rangeEnd dataLen).alerted = true ↔
      (rangeStart < 1 ∨ rangeEnd > (dataLen : Int) ∨ rangeStart > rangeEnd)) ∧
    ((rangeStart < 1 ∨ rangeEnd > (dataLen : Int) ∨ rangeStart > rangeEnd) →
      handleDownloadRange rangeStart rangeEnd dataLen
        = { alerted := true, scheduled := [], showRangeDialog := true }) ∧
    (1 ≤ rangeStart → rangeEnd ≤ (dataLen : Int) → rangeStart ≤ rangeEnd →
      (handleDownloadRange rangeStart rangeEnd dataLen).alerted = false ∧
      (handleDownloadRange rangeStart rangeEnd dataLen).showRangeDialog = false ∧
      ((handleDownloadRange rangeStart rangeEnd dataLen).scheduled.length : Int)
          = rangeEnd - rangeStart + 1 ∧
      (∀ i : Nat, i ∈ (handleDownloadRange rangeStart rangeEnd dataLen).scheduled ↔
        (rangeStart ≤ (i : Int) + 1 ∧ (i : Int) + 1 ≤ rangeEnd))) := by
  by_cases h : rangeStart < 1 ∨ rangeEnd > (dataLen : Int) ∨ rangeStart > rangeEnd
  · rw [handleDownloadRange, if_pos h]
    refine ⟨by simp [h], fun _ => rfl, ?_⟩
    intro h1 h2 h3
    omega
  · rw [handleDownloadRange, if_neg h]
    refine ⟨by simpa using h, fun hc => absurd hc h, ?_⟩
    intro h1 h2 h3
    refine ⟨rfl, rfl, ?_, ?_⟩
    · simp only [List.length_range']
      omega
    · intro i
      simp only [List.mem_range'_1]
      omega

/-- Witness for C5: range 2..3 over 4 records schedules exactly the 0-based
indices 1 and 2 and closes the dialog; range 0..1 alerts. -/
theorem handleDownloadRange_spec_w :
    (handleDownloadRange 2 3 4).alerted = false ∧
    ((handleDownloadRange 2 3 4).scheduled.length : Int) = 2 ∧
    (1 ∈ (handleDownloadRange 2 3 4).scheduled ↔ ((2:Int) ≤ 1 + 1 ∧ (1:Int) + 1 ≤ 3)) ∧
    (handleDownloadRange 0 1 4).alerted = true := by
  have hv := (handleDownloadRange_spec 2 3 4).2.2 (by decide) (by decide) (by decide)
  have hi := (handleDownloadRange_spec 0 1 4).1.mpr (by left; decide)
  exact ⟨hv.1, hv.2.2.1, hv.2.2.2 1, hi⟩

/-- Models the filename choice `record.name || record.Name ||
certificate_(idx+1)` of the download handlers, including JavaScript
truthiness: an absent, null, empty-string or zero `name` falls through. -/
def certName (record : CertRecord) (idx : Nat) : String :=
  let n1 := jlookup record "name"
  if jTruthy n1 then jsToString (n1.getD JValue.null)
  else
    let n2 := jlookup record "Name"
    if jTruthy n2 then jsToString (n2.getD JValue.null)
    else "certificate_" ++ toString (idx + 1)

/-- Models `handleDownloadAll` of App.tsx: one scheduled action per record,
at delay idx * 500, each wrapped in its own try/catch.  `generate` stands for
the `generateDocx`-and-`downloadDocx` body; `none` models a thrown error
(caught and logged, leaving the other records' actions in place), `some ()` a
successful generation, in which case the downloaded filename is recorded. -/
def handleDownloadAll (generate : CertRecord → Option Unit) (data : List CertRecord) :
    List (Nat × Option String) :=
  data.enum.map (fun p => (p.1 * 500, (generate p.2).map (fun _ => certName p.2 p.1)))

/-- The three branches of the filename choice, stated for an arbitrary
record. -/
theorem certName_cases (r : CertRecord) (idx : Nat) :
    (∀ v, jlookup r "name" = some v → jTruthy (some v) = true →
      certName r idx = jsToString v) ∧
    (jTruthy (jlookup r "name") = false →
      ∀ v, jlookup r "Name" = some v → jTruthy (some v) = true →
        certName r idx = jsToString v) ∧
    (jTruthy (jlookup r "name") = false → jTruthy (jlookup r "Name") = false →
      certName r idx = "certificate_" ++ toString (idx + 1)) := by
  refine ⟨?_, ?_, ?_⟩
  · intro v hv htr
    rw [certName, hv]
    show (if jTruthy (some v) = true then _ else _) = _
    rw [if_pos htr]
    rfl
  · intro hf v hv htr
    rw [certName, if_neg (by simp [hf]), hv]
    show (if jTruthy (some v) = true then _ else _) = _
    rw [if_pos htr]
    rfl
  · intro hf1 hf2
    rw [certName, if_neg (by simp [hf1]), if_neg (by simp [hf2])]

/-- C6 (amended): `handleDownloadAll` schedules exactly one document per
record, in record order with increasing delays; the i-th action depends only
on the i-th record and names its file for the record's truthy `name` (or
`Name`) value, falling back to certificate_(i+1); a failure in one record's
generation leaves every other record's entry unchanged. -/
theorem handleDownloadAll_per_record (generate : CertRecord → Option Unit)
    (data : List CertRecord) (i : Nat) (hi : i < data.length)
    (hi2 : i < (handleDownloadAll generate data).length) :
    (handleDownloadAll generate data).length = data.length ∧
    (handleDownloadAll generate data).get ⟨i, hi2⟩
      = (i * 500,
         (generate (data.get ⟨i, hi⟩)).map (fun _ => certName (data.get ⟨i, hi⟩) i)) ∧
    (∀ v, jlookup (data.get ⟨i, hi⟩) "name" = some v → jTruthy (some v) = true →
      certName (data.get ⟨i, hi⟩) i = jsToString v) ∧
    (jTruthy (jlookup (data.get ⟨i, hi⟩) "name") = false →
      ∀ v, jlookup (data.get ⟨i, hi⟩) "Name" = some v → jTruthy (some v) = true →
        certName (data.get ⟨i, hi⟩) i = jsToString v) ∧
    (jTruthy (jlookup (data.get ⟨i, hi⟩) "name") = false →
      jTruthy (jlookup (data.get ⟨i, hi⟩) "Name") = false →
      certName (data.get ⟨i, hi⟩) i = "certificate_" ++ toString (i + 1)) := by
  obtain ⟨h1, h2, h3⟩ := certName_cases (data.get ⟨i, hi⟩) i
  refine ⟨by simp [handleDownloadAll], ?_, h1, h2, h3⟩
  simp [handleDownloadAll, List.get_eq_getElem, List.getElem_map, List.getElem_enum]

/-- Witness for C6: a one-record data set with a truthy name downloads one
file named for the record. -/
theorem handleDownloadAll_per_record_w :
    (handleDownloadAll (fun _ => some ()) [[("name", JValue.str "Alice")]]).get ⟨0, by decide⟩
      = (0, some "Alice") ∧
    certName [("name", JValue.str "Alice")] 0 = "Alice" := by
  have h := handleDownloadAll_per_record (fun _ => some ()) [[("name", JValue.str "Alice")]]
    0 (by decide) (by decide)
  have hn := h.2.2.1 (JValue.str "Alice") (by decide) (by decide)
  refine ⟨?_, hn⟩
  rw [h.2.1]
  decide

/-- C6 counterexample: a record whose `name` field is present but the empty
string is not named for that field; the falsy value falls through to the
certificate_1 fallback. -/
theorem handleDownloadAll_empty_name_counterexample :
    handleDownloadAll (fun _ => some ()) [[("name", JValue.str "")]]
      = [(0, some "certificate_1")] ∧ ("certificate_1" : String) ≠ "" := by
  exact ⟨by decide, by decide⟩

/-- The slice of application state touched by `handleExcelUpload`. -/
structure ExcelState where
  data : List CertRecord
  excelColumns : List String
  currentIndex : Nat
  rangeEnd : Nat
  uploadStatusExcel : Bool
deriving DecidableEq, Repr

/-- Models `handleExcelUpload` of App.tsx.  `parseResult` stands for the
XLSX read-and-convert step: `Except.error` models a thrown parse error
(caught, alerting the user), `Except.ok rows` the parsed sheet rows.  The
returned Bool reports whether the error alert fired.  State is written only
on a successful parse with at least one row. -/
def handleExcelUpload (parseResult : Except String (List CertRecord))
    (s : ExcelState) : ExcelState × Bool :=
  match parseResult with
  | Except.error _ => (s, true)
  | Except.ok jsonData =>
    if 0 < jsonData.length then
      let processedData := processExcelData jsonData
      ({ data := processedData
         excelColumns := (jsonData.headD []).map Prod.fst
         currentIndex := 0
         rangeEnd := processedData.length
         uploadStatusExcel := true }, false)
    else (s, false)

/-- C7: a parse error alerts and leaves every state field unchanged, and
state is changed only by a successful parse with at least one row. -/
theorem handleExcelUpload_catch_frame (msg : String) (s : ExcelState)
    (p : Except String (List CertRecord)) :
    handleExcelUpload (Except.error msg) s = (s, true) ∧
    ((handleExcelUpload p s).1 = s ∨ ∃ rows, p = Except.ok rows ∧ 0 < rows.length) := by
  refine ⟨rfl, ?_⟩
  match p with
  | Except.error e => exact Or.inl rfl
  | Except.ok rows =>
    by_cases h : 0 < rows.length
    · exact Or.inr ⟨rows, rfl, h⟩
    · left
      rw [handleExcelUpload, if_neg h]

/-- C10: a sheet that parses to zero rows triggers no alert and leaves the
state untouched, so the excel upload is never marked complete by an empty
sheet. -/
theorem handleExcelUpload_empty_sheet (s : ExcelState) :
    handleExcelUpload (Except.ok []) s = (s, false) := rfl

/-- The literal left curly brace character. -/
def lbrace : Char := '\x7b'

/-- The literal right curly brace character. -/
def rbrace : Char := '\x7d'

/-- Case-insensitive literal prefix match: strips `pat` (compared through
`Char.toLower`, the comparison performed by a regex `i` flag on ASCII text)
from the front of the string and returns the remainder, or `none`. -/
def ciStrip : List Char → List Char → Option (List Char)
  | [], s => some s
  | _ :: _, [] => none
  | p :: ps, c :: cs => if p.toLower = c.toLower then ciStrip ps cs else none

/-- One global pass of `merged.replace(new RegExp(pattern, 'gi'), value)` for
a literal pattern `p :: ps`: scan left to right, replace each leftmost
non-overlapping case-insensitive occurrence, never rescanning the inserted
value.  The fuel argument (one unit per consumed character) makes the
recursion structural; `replaceAllCI` supplies `s.length`, which is enough
because every step consumes at least one character. -/
def replaceCIcore (p : Char) (ps val : List Char) : Nat → List Char → List Char
  | _, [] => []
  | 0, s => s
  | fuel + 1, c :: cs =>
    match ciStrip (p :: ps) (c :: cs) with
    | some rest => val ++ replaceCIcore p ps val fuel rest
    | none => c :: replaceCIcore p ps val fuel cs

/-- Global case-insensitive replacement of a literal pattern.  The source
interpolates the record key into a `RegExp` without escaping; keys are
modelled as literal text, which is exact for keys free of regex
metacharacters.  The patterns built below are never empty. -/
def replaceAllCI (pat val s : List Char) : List Char :=
  match pat with
  | [] => s
  | p :: ps => replaceCIcore p ps val s.length s

/-- The single-brace pattern `\{key\}` of `mergeCertificate`. -/
def patBrace (key : String) : List Char := lbrace :: (key.data ++ [rbrace])

/-- The double-brace pattern `\{\{key\}\}` of `mergeCertificate`. -/
def patDouble (key : String) : List Char :=
  lbrace :: lbrace :: (key.data ++ [rbrace, rbrace])

/-- The bracket pattern `\[key\]` of `mergeCertificate`. -/
def patBracket (key : String) : List Char := '[' :: (key.data ++ [']'])

/-- The body of the `Object.keys(record).forEach` loop of `mergeCertificate`:
replace `\{key\}`, then `\{\{key\}\}`, then `\[key\]`, each globally and
case-insensitively, by the value. -/
def substKey (merged : List Char) (key : String) (value : List Char) : List Char :=
  let m1 := replaceAllCI (patBrace key) value merged
  let m2 := replaceAllCI (patDouble key) value m1
  replaceAllCI (patBracket key) value m2

/-- Models `mergeCertificate` of App.tsx (and of `src/unnamed/part_000`):
fold the per-key substitution over the record keys in order, starting from
the template. -/
def mergeCertificate (template : String) (record : CertRecord) : String :=
  String.mk (record.foldl
    (fun merged kv => substKey merged kv.1 (jvalToStr kv.2).data) template.data)

/-- `ciStrip` on equal (hence case-insensitively equal) prefixes reduces to
the leftover pattern and text. -/
theorem ciStrip_append_self (x p' s' : List Char) :
    ciStrip (x ++ p') (x ++ s') = ciStrip p' s' := by
  induction x with
  | nil => rfl
  | cons a x ih =>
    simp only [List.cons_append, ciStrip, if_pos rfl]
    exact ih

/-- A case-insensitive occurrence of the pattern somewhere in the string:
some suffix starts with the pattern. -/
def ciOccurs (pat : List Char) : List Char → Bool
  | [] => (ciStrip pat []).isSome
  | c :: cs => (ciStrip pat (c :: cs)).isSome || ciOccurs pat cs

/-- Absence of occurrences means `ciStrip` fails on every suffix. -/
theorem ciStrip_eq_none_of_not_ciOccurs (pat : List Char) :
    ∀ s : List Char, ciOccurs pat s = false → ∀ t, t <:+ s → ciStrip pat t = none := by
  intro s
  induction s with
  | nil =>
    intro h t ht
    rw [List.suffix_nil.mp ht]
    rw [ciOccurs] at h
    exact Option.not_isSome_iff_eq_none.mp (by simp [h])
  | cons c cs ih =>
    intro h t ht
    rw [ciOccurs, Bool.or_eq_false_iff] at h
    rcases List.suffix_cons_iff.mp ht with h1 | h1
    · rw [h1]
      exact Option.not_isSome_iff_eq_none.mp (by simp [h.1])
    · exact ih h.2 t h1

/-- With no occurrence of the pattern, the replacement scan is the
identity (for any amount of fuel). -/
theorem replaceCIcore_id_of_no_match (p : Char) (ps val : List Char) :
    ∀ (s : List Char) (fuel : Nat),
      (∀ t, t <:+ s → ciStrip (p :: ps) t = none) →
      replaceCIcore p ps val fuel s = s := by
  intro s
  induction s with
  | nil => intro fuel h; cases fuel <;> rfl
  | cons c cs ih =>
    intro fuel h
    cases fuel with
    | zero => rfl
    | succ fuel =>
      rw [replaceCIcore, h (c :: cs) (List.suffix_refl _)]
      exact congrArg (c :: ·) (ih fuel fun t ht => h t (ht.trans (List.suffix_cons c cs)))

/-- With no occurrence of the pattern, global replacement is the identity. -/
theorem replaceAllCI_id_of_not_ciOccurs (pat val s : List Char)
    (h : ciOccurs pat s = false) : replaceAllCI pat val s = s := by
  match pat with
  | [] => rfl
  | p :: ps =>
    exact replaceCIcore_id_of_no_match p ps val s s.length
      (ciStrip_eq_none_of_not_ciOccurs (p :: ps) s h)

/-- The head of a nonempty suffix is an element of the list. -/
theorem head_mem_of_suffix {α : Type} {c : α} {t s : List α} (h : (c :: t) <:+ s) :
    c ∈ s := by
  obtain ⟨pre, hpre⟩ := h
  rw [← hpre]
  simp

/-- A pattern whose head character never case-folds to a character of the
string does not occur in it. -/
theorem not_ciOccurs_of_head_ne (p : Char) (ps s : List Char)
    (h : ∀ c ∈ s, p.toLower ≠ c.toLower) : ciOccurs (p :: ps) s = false := by
  induction s with
  | nil => rfl
  | cons c cs ih =>
    rw [ciOccurs, Bool.or_eq_false_iff]
    have hhead : ciStrip (p :: ps) (c :: cs) = none := by
      simp only [ciStrip]
      rw [if_neg (h c (List.mem_cons_self c cs))]
    exact ⟨by simp [hhead], ih fun d hd => h d (List.mem_cons_of_mem c hd)⟩

/-- C1 (amended): an absent field substitutes the empty string in the DOCX
export only: `generateDocx` maps a placeholder with no case-insensitive
matching column to the empty string (and its `nullGetter` renders uncovered
tags empty), while the HTML preview `mergeCertificate` substitutes nothing
for record keys whose patterns do not occur in the template, leaving the
template text (in particular any unmatched placeholder) verbatim. -/
theorem absent_field_empty_string (phs : List String) (record : CertRecord)
    (ph : String) (t : String) (hph : ph ∈ phs)
    (habsent : ∀ kv ∈ record, toLowerStr kv.1 ≠ toLowerStr ph)
    (huntouched : ∀ kv ∈ record,
      ciOccurs (patBrace kv.1) t.data = false ∧
      ciOccurs (patDouble kv.1) t.data = false ∧
      ciOccurs (patBracket kv.1) t.data = false) :
    ((ph, "") ∈ buildTemplateData phs record ∧ nullGetterValue = "") ∧
    mergeCertificate t record = t := by
  have hempty : caseInsensitiveValue record ph = "" := by
    have hnone : record.find? (fun kv => toLowerStr kv.1 = toLowerStr ph) = none := by
      rw [List.find?_eq_none]
      intro kv hkv
      simp [habsent kv hkv]
    rw [caseInsensitiveValue, hnone]
  refine ⟨⟨List.mem_map.mpr ⟨ph, hph, by rw [hempty]⟩, rfl⟩, ?_⟩
  have hfold : ∀ (rec : CertRecord),
      (∀ kv ∈ rec,
        ciOccurs (patBrace kv.1) t.data = false ∧
        ciOccurs (patDouble kv.1) t.data = false ∧
        ciOccurs (patBracket kv.1) t.data = false) →
      rec.foldl (fun merged kv => substKey merged kv.1 (jvalToStr kv.2).data) t.data
        = t.data := by
    intro rec
    induction rec with
    | nil => intro _; rfl
    | cons kv rest ih =>
      intro hall
      obtain ⟨h1, h2, h3⟩ := hall kv (List.mem_cons_self kv rest)
      have hstep : substKey t.data kv.1 (jvalToStr kv.2).data = t.data := by
        simp only [substKey]
        rw [replaceAllCI_id_of_not_ciOccurs _ _ _ h1,
            replaceAllCI_id_of_not_ciOccurs _ _ _ h2,
            replaceAllCI_id_of_not_ciOccurs _ _ _ h3]
      rw [List.foldl_cons, hstep]
      exact ih fun kv' h' => hall kv' (List.mem_cons_of_mem kv h')
  rw [mergeCertificate, hfold record huntouched]

/-- C1 counterexample: with a record that has no matching column, the HTML
preview leaves the placeholder text verbatim instead of substituting the
empty string. -/
theorem mergeCertificate_absent_field_counterexample :
    mergeCertificate "\x7bmissing\x7d" [("other", JValue.str "x")] = "\x7bmissing\x7d" ∧
    ("\x7bmissing\x7d" : String) ≠ "" := ⟨by decide, by decide⟩

/-- Witness for the amended C1 on concrete inputs. -/
theorem absent_field_empty_string_w :
    ((("missing", "") ∈ buildTemplateData ["missing"] [("other", JValue.str "x")]) ∧
      nullGetterValue = "") ∧
    mergeCertificate "Dear name" [("other", JValue.str "x")] = "Dear name" := by
  exact absent_field_empty_string ["missing"] [("other", JValue.str "x")] "missing"
    "Dear name" (by decide) (by decide) (by decide)

/-- Stripping the single-brace pattern fails on the double-brace template:
after the leading brace, the pattern wants a key character (or the closing
brace) where the text has a second opening brace. -/
theorem ciStrip_patBrace_double (k : String)
    (hk : ∀ c ∈ k.data, c.toLower ≠ lbrace) :
    ciStrip (patBrace k) (lbrace :: lbrace :: (k.data ++ [rbrace, rbrace])) = none := by
  simp only [patBrace, ciStrip, if_pos rfl]
  match hkd : k.data with
  | [] => decide
  | k0 :: ks =>
    simp only [List.cons_append, ciStrip]
    rw [if_pos trivial, if_neg (fun hc =>
      hk k0 (by rw [hkd]; exact List.mem_cons_self k0 ks) (hc.trans (by decide)))]

/-- Stripping the single-brace pattern succeeds one position later on the
double-brace template, consuming the inner braces and leaving the final
closing brace. -/
theorem ciStrip_patBrace_inner (k : String) :
    ciStrip (patBrace k) (lbrace :: (k.data ++ [rbrace, rbrace])) = some [rbrace] := by
  have h1 : patBrace k = (lbrace :: k.data) ++ [rbrace] := by simp [patBrace]
  have h2 : lbrace :: (k.data ++ [rbrace, rbrace])
      = (lbrace :: k.data) ++ [rbrace, rbrace] := by simp
  rw [h1, h2, ciStrip_append_self]
  decide

/-- First replacement pass of `mergeCertificate` on the template `{{k}}`:
the single-brace pattern matches at the second character, so the pass yields
the value wrapped in the outer brace pair. -/
theorem replaceCIcore_double_brace (k v : String)
    (hk : ∀ c ∈ k.data, c.toLower ≠ lbrace) (m : Nat) :
    replaceCIcore lbrace (k.data ++ [rbrace]) v.data (m + 3)
      (lbrace :: lbrace :: (k.data ++ [rbrace, rbrace]))
      = lbrace :: (v.data ++ [rbrace]) := by
  have hrb : ciStrip (lbrace :: (k.data ++ [rbrace])) [rbrace] = none := by
    simp only [ciStrip]
    rw [if_neg (by decide)]
  have e1 := ciStrip_patBrace_double k hk
  have e2 := ciStrip_patBrace_inner k
  simp only [patBrace] at e1 e2
  show replaceCIcore lbrace (k.data ++ [rbrace]) v.data ((m + 2) + 1)
      (lbrace :: (lbrace :: (k.data ++ [rbrace, rbrace]))) = _
  rw [replaceCIcore, e1]
  show lbrace :: replaceCIcore lbrace (k.data ++ [rbrace]) v.data ((m + 1) + 1)
      (lbrace :: (k.data ++ [rbrace, rbrace])) = _
  rw [replaceCIcore, e2]
  show lbrace :: (v.data ++ replaceCIcore lbrace (k.data ++ [rbrace]) v.data (m + 1) [rbrace]) = _
  rw [replaceCIcore, hrb]
  simp only [replaceCIcore]

/-- The double-brace pattern does not match any suffix of the wrapped value
`{v}` when `v` is free of opening braces. -/
theorem ciStrip_patDouble_none (k v : String)
    (hv : ∀ c ∈ v.data, c.toLower ≠ lbrace) :
    ∀ t, t <:+ (lbrace :: (v.data ++ [rbrace])) → ciStrip (patDouble k) t = none := by
  have hfirst : ∀ (c : Char) (cs : List Char), c.toLower ≠ lbrace →
      ciStrip (patDouble k) (c :: cs) = none := by
    intro c cs hc
    simp only [patDouble, ciStrip]
    rw [if_neg (fun h => hc (((by decide : lbrace.toLower = lbrace) ▸ h).symm))]
  have htail : ∀ t, t <:+ (v.data ++ [rbrace]) → ciStrip (patDouble k) t = none := by
    intro t ht
    match t with
    | [] => rfl
    | c :: t' =>
      have hc : c ∈ v.data ++ [rbrace] := head_mem_of_suffix ht
      rcases List.mem_append.mp hc with h | h
      · exact hfirst c t' (hv c h)
      · rw [List.mem_singleton.mp h]
        exact hfirst rbrace t' (by decide)
  intro t ht
  rcases List.suffix_cons_iff.mp ht with h | h
  · rw [h]
    simp only [patDouble, ciStrip, if_pos rfl]
    match hvd : v.data with
    | [] =>
      simp only [List.nil_append, ciStrip]
      rw [if_pos trivial, if_neg (by decide)]
    | v0 :: vs =>
      simp only [List.cons_append, ciStrip]
      rw [if_pos trivial, if_neg (fun h =>
        hv v0 (by rw [hvd]; exact List.mem_cons_self v0 vs)
          (((by decide : lbrace.toLower = lbrace) ▸ h).symm))]
  · exact htail t h

/-- The bracket pattern does not occur in the wrapped value `{v}` when `v`
is free of opening brackets. -/
theorem ciOccurs_patBracket_false (k v : String)
    (hv : ∀ c ∈ v.data, c.toLower ≠ '[') :
    ciOccurs (patBracket k) (lbrace :: (v.data ++ [rbrace])) = false := by
  rw [patBracket]
  apply not_ciOccurs_of_head_ne
  intro c hc
  rcases List.mem_cons.mp hc with h | h
  · rw [h]; decide
  · rcases List.mem_append.mp h with h' | h'
    · intro he
      exact hv c h' (((by decide : Char.toLower '[' = '[') ▸ he).symm)
    · rw [List.mem_singleton.mp h']; decide

/-- C9 (amended): because the single-brace replacement runs first, a
double-brace placeholder `{{k}}` is consumed by the `{k}` pass: the template
consisting of `{{k}}` merges, for a record mapping k to v (with k free of
characters case-folding to an opening brace and v free of characters
case-folding to an opening brace or bracket), to the value wrapped in one
stray brace pair `{v}` — not to the bare value the claim states. -/
theorem mergeCertificate_double_brace (k v : String)
    (hk : ∀ c ∈ k.data, c.toLower ≠ lbrace)
    (hv : ∀ c ∈ v.data, c.toLower ≠ lbrace ∧ c.toLower ≠ '[') :
    mergeCertificate (String.mk (patDouble k)) [(k, JValue.str v)]
      = String.mk (lbrace :: (v.data ++ [rbrace])) := by
  have hlen : (patDouble k).length = (k.data.length + 1) + 3 := by
    simp [patDouble]
  have h1 : replaceAllCI (patBrace k) v.data (patDouble k)
      = lbrace :: (v.data ++ [rbrace]) := by
    show replaceCIcore lbrace (k.data ++ [rbrace]) v.data (patDouble k).length (patDouble k) = _
    rw [hlen]
    exact replaceCIcore_double_brace k v hk (k.data.length + 1)
  have h2 : replaceAllCI (patDouble k) v.data (lbrace :: (v.data ++ [rbrace]))
      = lbrace :: (v.data ++ [rbrace]) := by
    show replaceCIcore lbrace (lbrace :: (k.data ++ [rbrace, rbrace])) v.data _ _ = _
    exact replaceCIcore_id_of_no_match _ _ _ _ _
      (ciStrip_patDouble_none k v (fun c hc => (hv c hc).1))
  have h3 : replaceAllCI (patBracket k) v.data (lbrace :: (v.data ++ [rbrace]))
      = lbrace :: (v.data ++ [rbrace]) :=
    replaceAllCI_id_of_not_ciOccurs _ _ _
      (ciOccurs_patBracket_false k v (fun c hc => (hv c hc).2))
  rw [mergeCertificate]
  rw [List.foldl_cons, List.foldl_nil]
  show String.mk (substKey (patDouble k) k v.data) = _
  rw [substKey]
  show String.mk (replaceAllCI (patBracket k) v.data
    (replaceAllCI (patDouble k) v.data (replaceAllCI (patBrace k) v.data (patDouble k)))) = _
  rw [h1, h2, h3]

/-- C9 counterexample: merging the template consisting of double-brace
placeholder name with the record name -> Bob yields the value wrapped in
stray braces, not the bare value the claim states. -/
theorem mergeCertificate_double_brace_counterexample :
    mergeCertificate "\x7b\x7bname\x7d\x7d" [("name", JValue.str "Bob")] = "\x7bBob\x7d" ∧
    ("\x7bBob\x7d" : String) ≠ "Bob" := ⟨by decide, by decide⟩

/-- Witness for the amended C9 on concrete inputs. -/
theorem mergeCertificate_double_brace_w :
    mergeCertificate (String.mk (patDouble "degree")) [("degree", JValue.str "PhD")]
      = String.mk (lbrace :: ("PhD".data ++ [rbrace])) ∧
    String.mk (patDouble "degree") = "\x7b\x7bdegree\x7d\x7d" ∧
    String.mk (lbrace :: ("PhD".data ++ [rbrace])) = "\x7bPhD\x7d" := by
  refine ⟨?_, by decide, by decide⟩
  exact mergeCertificate_double_brace "degree" "PhD" (by decide) (by decide)

/-- The regex word-character class `\w` = [A-Za-z0-9_]. -/
def isWordChar (c : Char) : Bool :=
  decide (97 ≤ c.toNat ∧ c.toNat ≤ 122) || decide (65 ≤ c.toNat ∧ c.toNat ≤ 90) ||
  decide (48 ≤ c.toNat ∧ c.toNat ≤ 57) || decide (c.toNat = 95)

/-- The first regex alternative `\{(\w+)\}` tried at one position: an opening
brace, a maximal nonempty word run, a closing brace.  Returns the captured
word and the text after the match. -/
def matchSingleBrace : List Char → Option (List Char × List Char)
  | c :: cs =>
    if c = lbrace then
      match cs.dropWhile isWordChar with
      | d :: rest =>
        if cs.takeWhile isWordChar ≠ [] ∧ d = rbrace then
          some (cs.takeWhile isWordChar, rest)
        else none
      | [] => none
    else none
  | [] => none

/-- The second regex alternative `\{\{(\w+)\}\}` tried at one position. -/
def matchDoubleBrace : List Char → Option (List Char × List Char)
  | c1 :: c2 :: cs =>
    if c1 = lbrace ∧ c2 = lbrace then
      match cs.dropWhile isWordChar with
      | d1 :: d2 :: rest =>
        if cs.takeWhile isWordChar ≠ [] ∧ d1 = rbrace ∧ d2 = rbrace then
          some (cs.takeWhile isWordChar, rest)
        else none
      | _ => none
    else none
  | _ => none

/-- The third regex alternative `\[(\w+)\]` tried at one position. -/
def matchBracket : List Char → Option (List Char × List Char)
  | c :: cs =>
    if c = '[' then
      match cs.dropWhile isWordChar with
      | d :: rest =>
        if cs.takeWhile isWordChar ≠ [] ∧ d = ']' then
          some (cs.takeWhile isWordChar, rest)
        else none
      | [] => none
    else none
  | [] => none

/-- The `placeholderRegex.exec` loop of `handleDocxUpload`: at each position
try the three alternatives in order; on a match emit the captured group and
resume after the match, otherwise advance one character.  Fuel (one unit per
consumed character) makes the recursion structural; the scan consumes at
least one character per step, so `text.length` units suffice. -/
def scanPlaceholders : Nat → List Char → List String
  | 0, _ => []
  | _ + 1, [] => []
  | fuel + 1, c :: cs =>
    match matchSingleBrace (c :: cs) with
    | some (w, rest) => String.mk w :: scanPlaceholders fuel rest
    | none =>
      match matchDoubleBrace (c :: cs) with
      | some (w, rest) => String.mk w :: scanPlaceholders fuel rest
      | none =>
        match matchBracket (c :: cs) with
        | some (w, rest) => String.mk w :: scanPlaceholders fuel rest
        | none => scanPlaceholders fuel cs

/-- Models `new Set` insertion followed by `Array.from`: deduplication
keeping first occurrences in order. -/
def dedupKeepFirst (l : List String) : List String :=
  l.foldl (fun acc s => if s ∈ acc then acc else acc ++ [s]) []

/-- Models the placeholder extraction of `handleDocxUpload`: scan the
document text with the three-alternative regex and collect the distinct
capture groups in first-occurrence order. -/
def extractPlaceholders (text : String) : List String :=
  dedupKeepFirst (scanPlaceholders text.data.length text.data)

/-- C8: the merge and the placeholder extraction are deterministic pure
functions: two runs on equal inputs produce identical outputs. -/
theorem merge_extract_deterministic (t1 t2 : String) (r1 r2 : CertRecord)
    (ht : t1 = t2) (hr : r1 = r2) :
    mergeCertificate t1 r1 = mergeCertificate t2 r2 ∧
    extractPlaceholders t1 = extractPlaceholders t2 := by
  subst ht
  subst hr
  exact ⟨rfl, rfl⟩

/-- Witness for C8 at a concrete template and record, with the extraction
evaluated on a template exercising all three placeholder forms. -/
theorem merge_extract_deterministic_w :
    mergeCertificate "\x7bname\x7d" [("name", JValue.str "Ada")]
      = mergeCertificate "\x7bname\x7d" [("name", JValue.str "Ada")] ∧
    extractPlaceholders "\x7bname\x7d \x7b\x7bdate\x7d\x7d [degree]"
      = extractPlaceholders "\x7bname\x7d \x7b\x7bdate\x7d\x7d [degree]" ∧
    extractPlaceholders "\x7bname\x7d \x7b\x7bdate\x7d\x7d [degree]"
      = ["name", "date", "degree"] ∧
    mergeCertificate "\x7bname\x7d" [("name", JValue.str "Ada")] = "Ada" := by
  have h1 := merge_extract_deterministic "\x7bname\x7d" "\x7bname\x7d"
    [("name", JValue.str "Ada")] [("name", JValue.str "Ada")] rfl rfl
  have h2 := merge_extract_deterministic "\x7bname\x7d \x7b\x7bdate\x7d\x7d [degree]"
    "\x7bname\x7d \x7b\x7bdate\x7d\x7d [degree]" [] [] rfl rfl
  exact ⟨h1.1, h2.2, by decide, by decide⟩

/-- The RFC 4648 base64 alphabet used by `btoa` / `atob`. -/
def b64Alphabet : List Char :=
  ['A', 'B', 'C', 'D', 'E', 'F', 'G', 'H', 'I', 'J', 'K', 'L', 'M',
   'N', 'O', 'P', 'Q', 'R', 'S', 'T', 'U', 'V', 'W', 'X', 'Y', 'Z',
   'a', 'b', 'c', 'd', 'e', 'f', 'g', 'h', 'i', 'j', 'k', 'l', 'm',
   'n', 'o', 'p', 'q', 'r', 's', 't', 'u', 'v', 'w', 'x', 'y', 'z',
   '0', '1', '2', '3', '4', '5', '6', '7', '8', '9', '+', '/']

/-- Digit-to-character table of the base64 alphabet. -/
def b64Char (n : Nat) : Char := b64Alphabet.getD n 'A'

/-- Character-to-digit table of the base64 alphabet. -/
def b64Index (c : Char) : Nat := b64Alphabet.indexOf c

/-- Models `btoa` on the binary string `arrayBufferToBase64` builds from the
buffer bytes with `String.fromCharCode`: standard base64 with `=` padding,
three bytes to four characters. -/
def b64EncodeBytes : List Nat → List Char
  | [] => []
  | [a] => [b64Char (a / 4), b64Char (a % 4 * 16), '=', '=']
  | [a, b] => [b64Char (a / 4), b64Char (a % 4 * 16 + b / 16), b64Char (b % 16 * 4), '=']
  | a :: b :: c :: rest =>
    b64Char (a / 4) :: b64Char (a % 4 * 16 + b / 16) :: b64Char (b % 16 * 4 + c / 64) ::
      b64Char (c % 64) :: b64EncodeBytes rest

/-- Models `atob` followed by the `charCodeAt` loop of
`base64ToArrayBuffer`: four characters back to three bytes, with `=`
padding ending the input. -/
def b64DecodeChars : List Char → List Nat
  | w :: x :: y :: z :: rest =>
    if z = '=' then
      if y = '=' then [b64Index w * 4 + b64Index x / 16]
      else [b64Index w * 4 + b64Index x / 16, b64Index x % 16 * 16 + b64Index y / 4]
    else
      (b64Index w * 4 + b64Index x / 16) :: (b64Index x % 16 * 16 + b64Index y / 4) ::
        (b64Index y % 4 * 64 + b64Index z) :: b64DecodeChars rest
  | _ => []

/-- Models `arrayBufferToBase64` of App.tsx: the buffer's bytes, read through
the intermediate binary string, encoded with `btoa`. -/
def arrayBufferToBase64 (buffer : List Nat) : String := String.mk (b64EncodeBytes buffer)

/-- Models `base64ToArrayBuffer` of App.tsx: decode with `atob` and read the
bytes back with `charCodeAt`. -/
def base64ToArrayBuffer (base64 : String) : List Nat := b64DecodeChars base64.data

/-- Decoding inverts the digit table on the 64 alphabet digits. -/
theorem b64Index_b64Char : ∀ n < 64, b64Index (b64Char n) = n := by decide

/-- No alphabet digit is the padding character. -/
theorem b64Char_ne_pad : ∀ n < 64, b64Char n ≠ '=' := by decide

/-- Base64 decoding inverts encoding on byte lists. -/
theorem b64_roundtrip_chars : ∀ l : List Nat, (∀ b ∈ l, b < 256) →
    b64DecodeChars (b64EncodeBytes l) = l
  | [], _ => rfl
  | [a], h => by
    have ha : a < 256 := h a (by simp)
    show b64DecodeChars [b64Char (a / 4), b64Char (a % 4 * 16), '=', '='] = [a]
    rw [b64DecodeChars, if_pos rfl, if_pos rfl,
      b64Index_b64Char _ (by omega), b64Index_b64Char _ (by omega)]
    have : a / 4 * 4 + a % 4 * 16 / 16 = a := by omega
    rw [this]
  | [a, b], h => by
    have ha : a < 256 := h a (by simp)
    have hb : b < 256 := h b (by simp)
    show b64DecodeChars [b64Char (a / 4), b64Char (a % 4 * 16 + b / 16),
      b64Char (b % 16 * 4), '='] = [a, b]
    rw [b64DecodeChars, if_pos rfl, if_neg (b64Char_ne_pad _ (by omega)),
      b64Index_b64Char _ (by omega), b64Index_b64Char _ (by omega),
      b64Index_b64Char _ (by omega)]
    have h1 : a / 4 * 4 + (a % 4 * 16 + b / 16) / 16 = a := by omega
    have h2 : (a % 4 * 16 + b / 16) % 16 * 16 + b % 16 * 4 / 4 = b := by omega
    rw [h1, h2]
  | a :: b :: c :: d :: rest, h => by
    have ha : a < 256 := h a (by simp)
    have hb : b < 256 := h b (by simp)
    have hc : c < 256 := h c (by simp)
    have ih := b64_roundtrip_chars (d :: rest) (fun x hx => h x (by simp [hx]))
    show b64DecodeChars (b64Char (a / 4) :: b64Char (a % 4 * 16 + b / 16) ::
      b64Char (b % 16 * 4 + c / 64) :: b64Char (c % 64) ::
      b64EncodeBytes (d :: rest)) = a :: b :: c :: d :: rest
    rw [b64DecodeChars, if_neg (b64Char_ne_pad _ (by omega)),
      b64Index_b64Char _ (by omega), b64Index_b64Char _ (by omega),
      b64Index_b64Char _ (by omega), b64Index_b64Char _ (by omega), ih]
    have h1 : a / 4 * 4 + (a % 4 * 16 + b / 16) / 16 = a := by omega
    have h2 : (a % 4 * 16 + b / 16) % 16 * 16 + (b % 16 * 4 + c / 64) / 4 = b := by omega
    have h3 : (b % 16 * 4 + c / 64) % 4 * 64 + c % 64 = c := by omega
    rw [h1, h2, h3]
  | [a, b, c], h => by
    have ha : a < 256 := h a (by simp)
    have hb : b < 256 := h b (by simp)
    have hc : c < 256 := h c (by simp)
    show b64DecodeChars [b64Char (a / 4), b64Char (a % 4 * 16 + b / 16),
      b64Char (b % 16 * 4 + c / 64), b64Char (c % 64)] = [a, b, c]
    rw [b64DecodeChars, if_neg (b64Char_ne_pad _ (by omega)),
      b64Index_b64Char _ (by omega), b64Index_b64Char _ (by omega),
      b64Index_b64Char _ (by omega), b64Index_b64Char _ (by omega)]
    have h1 : a / 4 * 4 + (a % 4 * 16 + b / 16) / 16 = a := by omega
    have h2 : (a % 4 * 16 + b / 16) % 16 * 16 + (b % 16 * 4 + c / 64) / 4 = b := by omega
    have h3 : (b % 16 * 4 + c / 64) % 4 * 64 + c % 64 = c := by omega
    rw [h1, h2, h3]
    rfl

/-- C2: the base64 persistence round-trips: for every buffer of bytes,
decoding the encoding restores exactly the original byte list (same length,
same contents), so a saved template binary reloads bit-for-bit. -/
theorem base64_roundtrip (buffer : List Nat) (h : ∀ byte ∈ buffer, byte < 256) :
    base64ToArrayBuffer (arrayBufferToBase64 buffer) = buffer :=
  b64_roundtrip_chars buffer h

/-- Witness for C2 on a concrete buffer exercising both padding shapes. -/
theorem base64_roundtrip_w :
    base64ToArrayBuffer (arrayBufferToBase64 [0, 77, 255, 10]) = [0, 77, 255, 10] ∧
    arrayBufferToBase64 [0, 77, 255, 10] = "AE3/Cg==" := by
  exact ⟨base64_roundtrip [0, 77, 255, 10] (by decide), by decide⟩
